import Mathlib

/-!
Verification of the trajectory-classification and grid-scan engine of
"Maintaining Viability with Multiple Needs" (McShaffrey & Beer, 2022).

The two Python source files are shallowly embedded here.  Machine floats are
modelled by exact rationals (`ℚ`); the external numerical integrator
`scipy.integrate.odeint` is modelled as an explicit function parameter
`odeint`, so every theorem quantifying over `odeint` holds for every possible
trajectory the integrator could return.
-/

/-- `np.linspace lo hi n`: `n` evenly spaced samples from `lo` to `hi`
inclusive. -/
def linspace (lo hi : ℚ) (n : ℕ) : List ℚ :=
  (List.range n).map fun i : ℕ => lo + (hi - lo) * (i : ℚ) / ((n : ℚ) - 1)

/-- `np.mean` of a list of rationals. -/
def mean (l : List ℚ) : ℚ := l.sum / l.length

namespace AdaptiveRegion

/-- A sampled state of the 4-dimensional system: location `L`, metabolites
`A` and `B`, behavioural variable `X` (one row of the trajectory array). -/
structure Vec4 where
  L : ℚ
  A : ℚ
  B : ℚ
  X : ℚ
  deriving DecidableEq, Repr

/-- Amount of `N` available based on location (function `N` of
`2D_adaptive_region.py`): the rising linear gradient clamped at zero. -/
def N (L S C : ℚ) : ℚ :=
  if S * L + C < 0 then 0 else S * L + C

/-- Amount of `F` available based on location (function `F` of
`2D_adaptive_region.py`): the falling linear gradient clamped at zero. -/
def F (L S C : ℚ) : ℚ :=
  if -S * L + C < 0 then 0 else -S * L + C

/-- The coupled ODE right-hand side `ode_func(vec, t)` of
`2D_adaptive_region.py`, with its compiled-in constants. -/
def ode_func (vec : Vec4) (_t : ℚ) : Vec4 :=
  let alpha : ℚ := 1
  let gamma : ℚ := 0.04
  let kd : ℚ := 0.05
  let K1 : ℚ := 4
  let n : ℕ := 3
  let h : ℕ := 20
  let K2 : ℚ := 0.5
  let C : ℚ := 9
  let S : ℚ := 4
  let V : ℚ := 2
  let L := vec.L
  let A := vec.A
  let B := vec.B
  let X := vec.X
  { L := (X - 0.5) * V
    A := gamma * ((B ^ n) / ((K1 ^ n) + (B ^ n))) * N L S C - kd * A
    B := gamma * ((A ^ n) / ((K1 ^ n) + (A ^ n))) * F L S C - kd * B
    X := alpha * (K2 ^ h / (((((A - B) / (A + B)) + 1) / 2) ^ h + K2 ^ h)) - X }

/-- Spec-side rectified supply function `supplyRising(location, slope,
intercept) = max(0, expression)`, stated from the design document's words. -/
def supplyRising (L S C : ℚ) : ℚ := max 0 (S * L + C)

/-- Spec-side rectified supply function `supplyFalling(location, slope,
intercept) = max(0, expression)`, stated from the design document's words. -/
def supplyFalling (L S C : ℚ) : ℚ := max 0 (-S * L + C)

/-- Spec-side reference vector field, written from the design document's
stated equations: `dL/dt = (X − 0.5)·V`; `dA/dt` is a Hill term in `B` times
the rising supply at `L` minus first-order decay; `dB/dt` symmetric with `A`
driving and the falling supply; `dX/dt` a steep sigmoidal relaxation toward a
target given by the normalised metabolite difference. -/
def ode_spec (vec : Vec4) (_t : ℚ) : Vec4 :=
  let alpha : ℚ := 1
  let gamma : ℚ := 0.04
  let kd : ℚ := 0.05
  let K1 : ℚ := 4
  let n : ℕ := 3
  let h : ℕ := 20
  let K2 : ℚ := 0.5
  let C : ℚ := 9
  let S : ℚ := 4
  let V : ℚ := 2
  let target : ℚ := (((vec.A - vec.B) / (vec.A + vec.B)) + 1) / 2
  { L := (vec.X - 0.5) * V
    A := gamma * ((vec.B ^ n) / ((K1 ^ n) + (vec.B ^ n))) * supplyRising vec.L S C
          - kd * vec.A
    B := gamma * ((vec.A ^ n) / ((K1 ^ n) + (vec.A ^ n))) * supplyFalling vec.L S C
          - kd * vec.B
    X := alpha * (K2 ^ h / (target ^ h + K2 ^ h)) - vec.X }

/-- Outcome classification applied by `survival` to a completed trajectory
(lines 127–143 of `2D_adaptive_region.py`): extract the `A` and `B` columns,
form `C = A + B`, and run the nested conditional with sentinel `dead =
1000.0`. -/
def classify (x : List Vec4) : ℚ :=
  let dead : ℚ := 1000.0
  let A := x.map Vec4.A
  let B := x.map Vec4.B
  let C := List.zipWith (· + ·) A B
  if (∀ a ∈ A, a > 0.1) ∧ (∀ b ∈ B, b > 0.1) ∧ (∀ c ∈ C, c ≤ 20) then 0.0
  else if ¬ (∀ c ∈ C, c ≤ 20) then 1.0
  else if ¬ ((∀ a ∈ A, a > 0.1) ∧ (∀ b ∈ B, b > 0.1)) then -1.0
  else dead

/-- `survival(a, b)` of `2D_adaptive_region.py`: integrate from
`x0 = [-10.0, a, b, 0.5]` over `t = np.linspace(0, 800, 2000)` and classify
the trajectory.  The external integrator is the parameter `odeint`. -/
def survival (odeint : Vec4 → List ℚ → List Vec4) (a b : ℚ) : ℚ :=
  let init_L : ℚ := -10.0
  let init_X : ℚ := 0.5
  let x0 : Vec4 := ⟨init_L, a, b, init_X⟩
  let t := linspace 0 800 2000
  let x := odeint x0 t
  classify x

/- Helper lemmas about the classifier's column-wise conditions. -/

lemma zipWith_map_same {α β : Type} (f : β → β → β) (g h : α → β) (x : List α) :
    List.zipWith f (x.map g) (x.map h) = x.map fun s => f (g s) (h s) := by
  induction x with
  | nil => rfl
  | cons a l ih => simp [ih]

lemma forall_mem_map_iff {α β : Type} (g : α → β) (p : β → Prop) (x : List α) :
    (∀ b ∈ x.map g, p b) ↔ ∀ s ∈ x, p (g s) := by
  simp

lemma classify_unfold (x : List Vec4) :
    classify x =
      if (∀ s ∈ x, Vec4.A s > 0.1) ∧ (∀ s ∈ x, Vec4.B s > 0.1) ∧
          (∀ s ∈ x, Vec4.A s + Vec4.B s ≤ 20) then 0.0
      else if ¬ (∀ s ∈ x, Vec4.A s + Vec4.B s ≤ 20) then 1.0
      else if ¬ ((∀ s ∈ x, Vec4.A s > 0.1) ∧ (∀ s ∈ x, Vec4.B s > 0.1)) then -1.0
      else 1000.0 := by
  unfold classify
  dsimp only
  rw [zipWith_map_same]
  simp only [forall_mem_map_iff]

lemma N_eq_max (L S C : ℚ) : N L S C = max 0 (S * L + C) := by
  unfold N
  rcases lt_or_le (S * L + C) 0 with h | h
  · rw [if_pos h, max_eq_left h.le]
  · rw [if_neg (not_lt.mpr h), max_eq_right h]

lemma F_eq_max (L S C : ℚ) : F L S C = max 0 (-S * L + C) := by
  unfold F
  rcases lt_or_le (-S * L + C) 0 with h | h
  · rw [if_pos h, max_eq_left h.le]
  · rw [if_neg (not_lt.mpr h), max_eq_right h]

lemma classify_eq_zero_iff (x : List Vec4) :
    classify x = 0 ↔ ∀ s ∈ x, s.A > 0.1 ∧ s.B > 0.1 ∧ s.A + s.B ≤ 20 := by
  rw [classify_unfold]
  constructor
  · intro h
    split_ifs at h with h1 h2 h3
    · intro s hs
      exact ⟨h1.1 s hs, h1.2.1 s hs, h1.2.2 s hs⟩
    · norm_num at h
    · norm_num at h
    · norm_num at h
  · intro h
    have h1 : (∀ s ∈ x, Vec4.A s > 0.1) ∧ (∀ s ∈ x, Vec4.B s > 0.1) ∧
        (∀ s ∈ x, Vec4.A s + Vec4.B s ≤ 20) :=
      ⟨fun s hs => (h s hs).1, fun s hs => (h s hs).2.1, fun s hs => (h s hs).2.2⟩
    rw [if_pos h1]
    norm_num

lemma classify_eq_one (x : List Vec4) (hc : ∃ s ∈ x, s.A + s.B > 20) :
    classify x = 1 := by
  rw [classify_unfold]
  obtain ⟨s, hs, hgt⟩ := hc
  have hnc : ¬ ∀ s ∈ x, Vec4.A s + Vec4.B s ≤ 20 := by
    intro hall
    exact absurd (hall s hs) (not_le.mpr hgt)
  rw [if_neg (by tauto), if_pos hnc]
  norm_num

lemma classify_eq_neg_one (x : List Vec4)
    (hc : ∀ s ∈ x, s.A + s.B ≤ 20)
    (hab : ∃ s ∈ x, s.A ≤ 0.1 ∨ s.B ≤ 0.1) :
    classify x = -1 := by
  rw [classify_unfold]
  obtain ⟨s, hs, hle⟩ := hab
  have hnab : ¬ ((∀ s ∈ x, Vec4.A s > 0.1) ∧ (∀ s ∈ x, Vec4.B s > 0.1)) := by
    rintro ⟨ha, hb⟩
    rcases hle with h | h
    · exact absurd (ha s hs) (not_lt.mpr h)
    · exact absurd (hb s hs) (not_lt.mpr h)
  rw [if_neg (by tauto), if_neg (by simpa using hc), if_pos hnab]
  norm_num

lemma classify_mem (x : List Vec4) :
    classify x = 0 ∨ classify x = 1 ∨ classify x = -1 := by
  rw [classify_unfold]
  split_ifs with h1 h2 h3 <;> norm_num
  exact h1 ⟨h3.1, h3.2, h2⟩

end AdaptiveRegion

namespace AdaptiveRegion

/-- C5: the rectified supply functions `N` and `F` equal
`max(0, linear expression)`: they return the linear value when it is
nonnegative, exactly `0` when it is negative, and are nonnegative for every
input. -/
theorem supply_functions_rectify (L S C : ℚ) :
    N L S C = supplyRising L S C ∧
    F L S C = supplyFalling L S C ∧
    (0 ≤ S * L + C → N L S C = S * L + C) ∧
    (S * L + C < 0 → N L S C = 0) ∧
    (0 ≤ -S * L + C → F L S C = -S * L + C) ∧
    (-S * L + C < 0 → F L S C = 0) ∧
    0 ≤ N L S C ∧ 0 ≤ F L S C := by
  refine ⟨?_, ?_, ?_, ?_, ?_, ?_, ?_, ?_⟩
  · unfold N supplyRising
    rcases lt_or_le (S * L + C) 0 with h | h
    · rw [if_pos h, max_eq_left h.le]
    · rw [if_neg (not_lt.mpr h), max_eq_right h]
  · unfold F supplyFalling
    rcases lt_or_le (-S * L + C) 0 with h | h
    · rw [if_pos h, max_eq_left h.le]
    · rw [if_neg (not_lt.mpr h), max_eq_right h]
  · intro hh; unfold N; rw [if_neg (not_lt.mpr hh)]
  · intro hh; unfold N; rw [if_pos hh]
  · intro hh; unfold F; rw [if_neg (not_lt.mpr hh)]
  · intro hh; unfold F; rw [if_pos hh]
  · unfold N; split_ifs with h
    · exact le_refl 0
    · exact le_of_not_lt h
  · unfold F; split_ifs with h
    · exact le_refl 0
    · exact le_of_not_lt h

/-- Witness for C5 at `L = 1, S = 2, C = 3`. -/
theorem supply_functions_rectify_witness :
    N 1 2 3 = supplyRising 1 2 3 ∧ 0 ≤ N 1 2 3 :=
  ⟨(supply_functions_rectify 1 2 3).1,
   (supply_functions_rectify 1 2 3).2.2.2.2.2.2.1⟩

/-- C6: the source vector field `ode_func` computes exactly the reference
equations stated in the design document (`ode_spec`), with the clamped
gradients `N`, `F` agreeing with the spec's rectified supply functions. -/
theorem ode_func_matches_spec (vec : Vec4) (t : ℚ) :
    ode_func vec t = ode_spec vec t := by
  unfold ode_func ode_spec supplyRising supplyFalling
  dsimp only
  rw [N_eq_max, F_eq_max]

/-- C1: `survival` returns the survive label `0` precisely when, at every
sampled time point of the integrated trajectory, `A > 0.1`, `B > 0.1` and
`C = A + B ≤ 20`. -/
theorem survival_eq_zero_iff (odeint : Vec4 → List ℚ → List Vec4) (a b : ℚ) :
    survival odeint a b = 0 ↔
      ∀ s ∈ odeint ⟨-10.0, a, b, 0.5⟩ (linspace 0 800 2000),
        s.A > 0.1 ∧ s.B > 0.1 ∧ s.A + s.B ≤ 20 := by
  unfold survival
  exact classify_eq_zero_iff _

/-- C2: whenever `C = A + B` exceeds `20` at some sampled time point of the
trajectory, `survival` returns the crisis label `1` — regardless of whether
`A` or `B` also drops to `0.1` or below, since the crisis check precedes the
starvation check. -/
theorem survival_eq_one_of_crisis (odeint : Vec4 → List ℚ → List Vec4)
    (a b : ℚ)
    (hc : ∃ s ∈ odeint ⟨-10.0, a, b, 0.5⟩ (linspace 0 800 2000),
      s.A + s.B > 20) :
    survival odeint a b = 1 := by
  unfold survival
  exact classify_eq_one _ hc

/-- A trajectory exhibiting an osmotic crisis (`A + B = 30 > 20`) and
simultaneous starvation (`B = 0 ≤ 0.1`), used to witness C2. -/
def crisisTraj : Vec4 → List ℚ → List Vec4 := fun _ _ => [⟨0, 30, 0, 0⟩]

/-- Witness for C2: on a trajectory violating both the crisis and the
starvation bound, the classifier returns the crisis label `1`. -/
theorem survival_eq_one_of_crisis_witness : survival crisisTraj 0 0 = 1 :=
  survival_eq_one_of_crisis crisisTraj 0 0
    ⟨⟨0, 30, 0, 0⟩, by simp [crisisTraj], by norm_num⟩

/-- C3: whenever `C = A + B` never exceeds `20` but `A` or `B` drops to `0.1`
or below at some sampled time point, `survival` returns the starvation label
`-1`. -/
theorem survival_eq_neg_one_of_starvation (odeint : Vec4 → List ℚ → List Vec4)
    (a b : ℚ)
    (hc : ∀ s ∈ odeint ⟨-10.0, a, b, 0.5⟩ (linspace 0 800 2000),
      s.A + s.B ≤ 20)
    (hab : ∃ s ∈ odeint ⟨-10.0, a, b, 0.5⟩ (linspace 0 800 2000),
      s.A ≤ 0.1 ∨ s.B ≤ 0.1) :
    survival odeint a b = -1 := by
  unfold survival
  exact classify_eq_neg_one _ hc hab

/-- A trajectory with both metabolites exhausted but no osmotic crisis, used
to witness C3. -/
def starveTraj : Vec4 → List ℚ → List Vec4 := fun _ _ => [⟨0, 0, 0, 0⟩]

/-- Witness for C3: on a starving trajectory the classifier returns `-1`. -/
theorem survival_eq_neg_one_of_starvation_witness :
    survival starveTraj 0 0 = -1 :=
  survival_eq_neg_one_of_starvation starveTraj 0 0
    (by norm_num [starveTraj])
    ⟨⟨0, 0, 0, 0⟩, by simp [starveTraj], by norm_num⟩

/-- C10: for every integrator and every pair of initial conditions the
classifier is exhaustive — `survival` returns one of the labels `0`, `1`,
`-1`; the internal sentinel `1000.0` is unreachable. -/
theorem survival_label_exhaustive (odeint : Vec4 → List ℚ → List Vec4)
    (a b : ℚ) :
    survival odeint a b = 0 ∨ survival odeint a b = 1 ∨
      survival odeint a b = -1 := by
  unfold survival
  exact classify_mem _

end AdaptiveRegion

namespace AdaptiveRegion

/-- `helper(z)` of `2D_adaptive_region.py`: unpack `(A, B, posit_A, posit_B)`,
evaluate `survival`, and re-attach the grid coordinates. -/
def helper (odeint : Vec4 → List ℚ → List Vec4) (z : ℚ × ℚ × ℕ × ℕ) :
    ℚ × ℕ × ℕ :=
  (survival odeint z.1 z.2.1, z.2.2.1, z.2.2.2)

/-- The job list built by `adapt_matrix`: one tuple `(a, b, pos_a, pos_b)` per
pair of enumerated positions, with the `B` grid flipped. -/
def conds (resolution : ℕ) : List (ℚ × ℚ × ℕ × ℕ) :=
  let init_A := linspace 0 20 resolution
  let init_B := (linspace 0 20 resolution).reverse
  init_A.enum.flatMap fun pa => init_B.enum.map fun pb =>
    (pa.2, pb.2, pa.1, pb.1)

/-- `outputs = pool.map(helper, conds)`: the collected job results (the
parallel map returns results in input order, but none of the theorems below
depend on that). -/
def outputs (odeint : Vec4 → List ℚ → List Vec4) (resolution : ℕ) :
    List (ℚ × ℕ × ℕ) :=
  (conds resolution).map (helper odeint)

/-- The scatter loop of `adapt_matrix`: starting from `np.zeros`, perform
`adpt_matrix[position_b, position_a] = status` for each result.  The matrix
is modelled as a total function on `(row, column)` coordinates. -/
def scatter (outs : List (ℚ × ℕ × ℕ)) : ℕ × ℕ → ℚ :=
  outs.foldl (fun m o => fun p => if p = (o.2.2, o.2.1) then o.1 else m p)
    (fun _ => 0)

/-- `adapt_matrix(resolution)` of `2D_adaptive_region.py`: build the job
list, run every job, and scatter the labels into the result matrix. -/
def adapt_matrix (odeint : Vec4 → List ℚ → List Vec4) (resolution : ℕ) :
    ℕ × ℕ → ℚ :=
  scatter (outputs odeint resolution)

lemma length_linspace (lo hi : ℚ) (n : ℕ) : (linspace lo hi n).length = n := by
  unfold linspace
  rw [List.length_map, List.length_range]

lemma getD_linspace (lo hi : ℚ) (n i : ℕ) (h : i < n) :
    (linspace lo hi n).getD i 0 = lo + (hi - lo) * i / ((n : ℚ) - 1) := by
  rw [List.getD_eq_getElem _ _ (by simpa [length_linspace] using h)]
  simp [linspace]

lemma enum_eq_range_map {α : Type} (l : List α) (d : α) :
    l.enum = (List.range l.length).map fun i => (i, l.getD i d) := by
  apply List.ext_getElem
  · simp
  · intro i h1 h2
    rw [List.getElem_enum, List.getElem_map, List.getElem_range,
      List.getD_eq_getElem _ _ (by simpa using h1)]

lemma conds_eq (R : ℕ) :
    conds R = (List.range R).flatMap fun pa => (List.range R).map fun pb =>
      ((linspace 0 20 R).getD pa 0, ((linspace 0 20 R).reverse).getD pb 0,
        pa, pb) := by
  unfold conds
  dsimp only
  rw [enum_eq_range_map (linspace 0 20 R) 0,
    enum_eq_range_map (linspace 0 20 R).reverse 0,
    List.length_reverse, length_linspace]
  simp [List.flatMap_map, List.map_map, Function.comp_def]

lemma mem_outputs_iff (odeint : Vec4 → List ℚ → List Vec4) (R : ℕ)
    (o : ℚ × ℕ × ℕ) :
    o ∈ outputs odeint R ↔ ∃ pa pb : ℕ, pa < R ∧ pb < R ∧
      o = (survival odeint ((linspace 0 20 R).getD pa 0)
            (((linspace 0 20 R).reverse).getD pb 0), pa, pb) := by
  unfold outputs
  rw [conds_eq]
  simp only [List.mem_map, List.mem_flatMap, List.mem_range]
  constructor
  · rintro ⟨z, ⟨pa, hpa, ⟨pb, hpb, rfl⟩⟩, rfl⟩
    exact ⟨pa, pb, hpa, hpb, rfl⟩
  · rintro ⟨pa, pb, hpa, hpb, rfl⟩
    exact ⟨_, ⟨pa, hpa, ⟨pb, hpb, rfl⟩⟩, rfl⟩

lemma outputs_key_injective (odeint : Vec4 → List ℚ → List Vec4) (R : ℕ) :
    ∀ o ∈ outputs odeint R, ∀ o' ∈ outputs odeint R,
      (o'.2.2, o'.2.1) = (o.2.2, o.2.1) → o' = o := by
  intro o ho o' ho' hk
  rw [mem_outputs_iff] at ho ho'
  obtain ⟨pa, pb, _, _, rfl⟩ := ho
  obtain ⟨pa', pb', _, _, rfl⟩ := ho'
  simp only [Prod.mk.injEq] at hk
  rw [hk.1, hk.2]

lemma scatter_append (l : List (ℚ × ℕ × ℕ)) (o : ℚ × ℕ × ℕ) (q : ℕ × ℕ) :
    scatter (l ++ [o]) q = if q = (o.2.2, o.2.1) then o.1 else scatter l q := by
  unfold scatter
  rw [List.foldl_append]
  rfl

lemma scatter_eq_zero (l : List (ℚ × ℕ × ℕ)) (q : ℕ × ℕ)
    (h : ∀ o ∈ l, (o.2.2, o.2.1) ≠ q) : scatter l q = 0 := by
  induction l using List.reverseRecOn with
  | nil => rfl
  | append_singleton l o ih =>
    rw [scatter_append, if_neg (fun hq => h o (by simp) hq.symm)]
    exact ih fun o' ho' => h o' (List.mem_append_left _ ho')

lemma scatter_eq_of_mem (l : List (ℚ × ℕ × ℕ)) (o : ℚ × ℕ × ℕ) (ho : o ∈ l)
    (uniq : ∀ o' ∈ l, (o'.2.2, o'.2.1) = (o.2.2, o.2.1) → o' = o) :
    scatter l (o.2.2, o.2.1) = o.1 := by
  induction l using List.reverseRecOn with
  | nil => cases ho
  | append_singleton l z ih =>
    rw [scatter_append]
    by_cases hz : ((o.2.2, o.2.1) : ℕ × ℕ) = (z.2.2, z.2.1)
    · rw [if_pos hz, uniq z (by simp) hz.symm]
    · rw [if_neg hz]
      have ho' : o ∈ l := by
        rcases List.mem_append.mp ho with h | h
        · exact h
        · rw [List.mem_singleton] at h
          exact absurd (h ▸ rfl) hz
      exact ih ho' fun o' ho'' hk => uniq o' (List.mem_append_left _ ho'') hk

end AdaptiveRegion

namespace AdaptiveRegion

lemma countP_flatMap {α β : Type} (p : β → Bool) (f : α → List β)
    (l : List α) :
    (l.flatMap f).countP p = (l.map fun a => (f a).countP p).sum := by
  induction l with
  | nil => rfl
  | cons a t ih => simp [List.flatMap_cons, List.countP_append, ih]

lemma length_flatMap_const {α β : Type} (l : List α) (f : α → List β) (c : ℕ)
    (h : ∀ a ∈ l, (f a).length = c) : (l.flatMap f).length = l.length * c := by
  induction l with
  | nil => simp
  | cons a t ih =>
    rw [List.flatMap_cons, List.length_append, h a (by simp),
      ih (fun a ha => h a (by simp [ha])), List.length_cons, Nat.succ_mul,
      Nat.add_comm]

lemma countP_range_eq_one (R i : ℕ) (hi : i < R) :
    (List.range R).countP (fun k => decide (k = i)) = 1 := by
  induction R with
  | zero => omega
  | succ n ih =>
    rw [List.range_succ, List.countP_append]
    rcases Nat.lt_or_ge i n with h | h
    · rw [ih h]
      have : (n = i) = False := by simp; omega
      simp [List.countP_cons, this]
    · have hin : i = n := by omega
      subst hin
      have h0 : (List.range i).countP (fun k => decide (k = i)) = 0 := by
        rw [List.countP_eq_zero]
        intro k hk
        simp only [decide_eq_true_eq]
        exact Nat.ne_of_lt (List.mem_range.mp hk)
      simp [h0, List.countP_cons]

lemma sum_map_ite {α : Type} (p : α → Prop) [DecidablePred p] (l : List α) :
    (l.map fun a => if p a then (1 : ℕ) else 0).sum =
      l.countP fun a => decide (p a) := by
  induction l with
  | nil => rfl
  | cons a t ih =>
    by_cases h : p a <;> simp [h, ih, List.countP_cons, Nat.add_comm]

lemma outputs_countP_eq_one (odeint : Vec4 → List ℚ → List Vec4)
    (R i j : ℕ) (hi : i < R) (hj : j < R) :
    (outputs odeint R).countP (fun o => decide ((o.2.2, o.2.1) = (i, j))) = 1 := by
  unfold outputs
  rw [List.countP_map, conds_eq, countP_flatMap]
  have hinner : ∀ pa ∈ List.range R,
      (((List.range R).map fun pb =>
          ((linspace 0 20 R).getD pa 0, ((linspace 0 20 R).reverse).getD pb 0,
            pa, pb)).countP
        ((fun o => decide ((o.2.2, o.2.1) = (i, j))) ∘ helper odeint)) =
      if pa = j then 1 else 0 := by
    intro pa _
    rw [List.countP_map]
    by_cases hpa : pa = j
    · subst hpa
      rw [if_pos rfl, ← countP_range_eq_one R i hi]
      apply List.countP_congr
      intro pb _
      simp [helper, Prod.ext_iff]
    · rw [if_neg hpa, List.countP_eq_zero]
      intro pb _
      simp [helper, Prod.ext_iff, hpa]
  rw [List.map_congr_left hinner, sum_map_ite (fun pa => pa = j),
    countP_range_eq_one R j hj]

/-- C4: at any grid resolution, every coordinate `(i, j)` of the `R × R`
result matrix is targeted by exactly one collected job result, and every
collected result targets an in-range coordinate — no cell is written twice
and none is left unwritten after the scan; the number of collected results
is exactly `R · R`. -/
theorem adapt_matrix_writes_each_cell_once
    (odeint : Vec4 → List ℚ → List Vec4) (R i j : ℕ)
    (_hR : 0 < R) (hi : i < R) (hj : j < R) :
    (outputs odeint R).countP (fun o => decide ((o.2.2, o.2.1) = (i, j))) = 1 ∧
    (∀ o ∈ outputs odeint R, o.2.1 < R ∧ o.2.2 < R) ∧
    (outputs odeint R).length = R * R := by
  refine ⟨outputs_countP_eq_one odeint R i j hi hj, ?_, ?_⟩
  · intro o ho
    obtain ⟨pa, pb, hpa, hpb, rfl⟩ := (mem_outputs_iff odeint R o).mp ho
    exact ⟨hpa, hpb⟩
  · unfold outputs
    rw [List.length_map, conds_eq,
      length_flatMap_const _ _ R (fun pa _ => by simp), List.length_range]

/-- Witness for C4 at `R = 1`, `i = j = 0`, with the trivial integrator. -/
theorem adapt_matrix_writes_each_cell_once_witness :
    (outputs (fun _ _ => []) 1).countP
        (fun o => decide ((o.2.2, o.2.1) = (0, 0))) = 1 ∧
    (∀ o ∈ outputs (fun _ _ => []) 1, o.2.1 < 1 ∧ o.2.2 < 1) ∧
    (outputs (fun _ _ => []) 1).length = 1 * 1 :=
  adapt_matrix_writes_each_cell_once (fun _ _ => []) 1 0 0 (by decide)
    (by decide) (by decide)

end AdaptiveRegion

namespace AdaptiveRegion

lemma getD_reverse {α : Type} (l : List α) (d : α) (i : ℕ) (h : i < l.length) :
    l.reverse.getD i d = l.getD (l.length - 1 - i) d := by
  rw [List.getD_eq_getElem _ _ (by simpa using h),
    List.getD_eq_getElem _ _ (by omega)]
  rw [List.getElem_reverse]

/-- C8: sweep geometry and orientation.  The result-matrix cell at
`(row, col)` holds the label for `A0` equal to the `col`-th ascending grid
value and `B0` equal to the `row`-th value of the reversed grid; the reversed
grid at `row` is the ascending grid at `R - 1 - row`; the ascending grid is
the evenly spaced cover of `[0, 20]` (`col`-th value `= 20·col/(R−1)`); and a
larger row index gives a strictly smaller `B0` value. -/
theorem adapt_matrix_entry_orientation (odeint : Vec4 → List ℚ → List Vec4)
    (R row col : ℕ) (hrow : row < R) (hcol : col < R) :
    adapt_matrix odeint R (row, col) =
      survival odeint ((linspace 0 20 R).getD col 0)
        (((linspace 0 20 R).reverse).getD row 0) ∧
    ((linspace 0 20 R).reverse).getD row 0 =
      (linspace 0 20 R).getD (R - 1 - row) 0 ∧
    (linspace 0 20 R).getD col 0 = 20 * col / ((R : ℚ) - 1) ∧
    (∀ row' : ℕ, row < row' → row' < R →
      ((linspace 0 20 R).reverse).getD row' 0 <
        ((linspace 0 20 R).reverse).getD row 0) := by
  refine ⟨?_, ?_, ?_, ?_⟩
  · have hmem :
        (survival odeint ((linspace 0 20 R).getD col 0)
          (((linspace 0 20 R).reverse).getD row 0), col, row) ∈
          outputs odeint R :=
      (mem_outputs_iff odeint R _).mpr ⟨col, row, hcol, hrow, rfl⟩
    exact scatter_eq_of_mem _ _ hmem
      (fun o' ho' => outputs_key_injective odeint R _ hmem o' ho')
  · rw [getD_reverse _ _ _ (by simpa [length_linspace] using hrow),
      length_linspace]
  · rw [getD_linspace _ _ _ _ hcol]
    norm_num
  · intro row' h1 h2
    rw [getD_reverse _ _ _ (by simpa [length_linspace] using h2),
      getD_reverse _ _ _ (by simpa [length_linspace] using hrow),
      length_linspace,
      getD_linspace _ _ _ _ (by omega), getD_linspace _ _ _ _ (by omega)]
    have hR2 : 2 ≤ R := by omega
    have hden : (0 : ℚ) < (R : ℚ) - 1 := by
      have : (2 : ℚ) ≤ (R : ℚ) := by exact_mod_cast hR2
      linarith
    have hnum : ((R - 1 - row' : ℕ) : ℚ) < ((R - 1 - row : ℕ) : ℚ) := by
      exact_mod_cast (by omega : R - 1 - row' < R - 1 - row)
    have key : (20 - 0 : ℚ) * ((R - 1 - row' : ℕ) : ℚ) / ((R : ℚ) - 1) <
        (20 - 0 : ℚ) * ((R - 1 - row : ℕ) : ℚ) / ((R : ℚ) - 1) := by
      apply div_lt_div_of_pos_right ?_ hden
      linarith
    linarith [key]

/-- Witness for C8 at `R = 2`, `row = 0`, `col = 1` with the trivial
integrator. -/
theorem adapt_matrix_entry_orientation_witness :
    adapt_matrix (fun _ _ => []) 2 (0, 1) =
      survival (fun _ _ => []) ((linspace 0 20 2).getD 1 0)
        (((linspace 0 20 2).reverse).getD 0 0) :=
  (adapt_matrix_entry_orientation (fun _ _ => []) 2 0 1 (by decide) (by decide)).1

/-- C9: the scan is deterministic and independent of job completion order —
scattering any permutation of the collected job results produces exactly the
matrix `adapt_matrix` returns, because each result is a pure function of its
grid point and each coordinate is written once. -/
theorem adapt_matrix_order_independent (odeint : Vec4 → List ℚ → List Vec4)
    (R : ℕ) (outs : List (ℚ × ℕ × ℕ))
    (hperm : outs.Perm (outputs odeint R)) :
    scatter outs = adapt_matrix odeint R := by
  funext q
  unfold adapt_matrix
  by_cases hex : ∃ o ∈ outputs odeint R, (o.2.2, o.2.1) = q
  · obtain ⟨o, ho, hk⟩ := hex
    have uniq : ∀ o' ∈ outputs odeint R,
        (o'.2.2, o'.2.1) = (o.2.2, o.2.1) → o' = o :=
      fun o' ho' => outputs_key_injective odeint R o ho o' ho'
    have h1 : scatter (outputs odeint R) (o.2.2, o.2.1) = o.1 :=
      scatter_eq_of_mem _ o ho uniq
    have h2 : scatter outs (o.2.2, o.2.1) = o.1 :=
      scatter_eq_of_mem _ o (hperm.mem_iff.mpr ho)
        (fun o' ho' => uniq o' (hperm.mem_iff.mp ho'))
    rw [← hk, h1, h2]
  · push_neg at hex
    rw [scatter_eq_zero _ q (fun o ho => hex o (hperm.mem_iff.mp ho)),
      scatter_eq_zero _ q (fun o ho => hex o ho)]

/-- Witness for C9: scattering the reversed result list at `R = 2` yields
the same matrix. -/
theorem adapt_matrix_order_independent_witness :
    scatter ((outputs (fun _ _ => []) 2).reverse) =
      adapt_matrix (fun _ _ => []) 2 :=
  adapt_matrix_order_independent (fun _ _ => []) 2 _
    ((outputs (fun _ _ => []) 2).reverse_perm)

end AdaptiveRegion

namespace FixedCond

/-- A sampled state of the reduced 2-dimensional metabolic system of
`FixedCondSurvival.py`: metabolites `A` and `B`. -/
structure Vec2 where
  A : ℚ
  B : ℚ
  deriving DecidableEq, Repr

/-- The reduced ODE right-hand side `ode_func(vec, t, N, F)` of
`FixedCondSurvival.py`: the metabolic dynamics under fixed supply
concentrations `N` and `F`. -/
def ode_func (vec : Vec2) (_t N F : ℚ) : Vec2 :=
  let N_conc := N
  let F_conc := F
  let gamma : ℚ := 0.04
  let kd : ℚ := 0.05
  let K1 : ℚ := 4
  let n : ℕ := 3
  let A := vec.A
  let B := vec.B
  { A := gamma * ((B ^ n) / ((K1 ^ n) + (B ^ n))) * N_conc - kd * A
    B := gamma * ((A ^ n) / ((K1 ^ n) + (A ^ n))) * F_conc - kd * B }

/-- `AB_survival(N, F, a, b)` of `FixedCondSurvival.py`: integrate the
reduced system from `[a, b]` over `t = np.linspace(0, 800, 4000)` and score
`1.0` if the survive condition holds at every sampled time point, else
`0.0`.  The external integrator is the parameter `odeint`. -/
def AB_survival (odeint : Vec2 → List ℚ → ℚ → ℚ → List Vec2)
    (N F a b : ℚ) : ℚ :=
  let survival : ℚ := 0.0
  let x0 : Vec2 := ⟨a, b⟩
  let t := linspace 0 800 4000
  let x := odeint x0 t N F
  let A := x.map Vec2.A
  let B := x.map Vec2.B
  let C := List.zipWith (· + ·) A B
  if (∀ a ∈ A, a > 0.1) ∧ (∀ b ∈ B, b > 0.1) ∧ (∀ c ∈ C, c ≤ 20) then
    survival + 1.0
  else survival

/-- `helper(z)` of `FixedCondSurvival.py`. -/
def helper (odeint : Vec2 → List ℚ → ℚ → ℚ → List Vec2)
    (z : ℚ × ℚ × ℚ × ℚ) : ℚ :=
  AB_survival odeint z.1 z.2.1 z.2.2.1 z.2.2.2

/-- The 50×50 job list built by `AB_assess` for one `(N, F)` pair. -/
def conds (N F : ℚ) : List (ℚ × ℚ × ℚ × ℚ) :=
  (linspace 0 20 50).flatMap fun a => (linspace 0 20 50).map fun b =>
    (N, F, a, b)

/-- `AB_assess(N, F)` of `FixedCondSurvival.py`: run the full 50×50 sub-grid
of initial conditions through `AB_survival` and return
`np.mean(outputs)`. -/
def AB_assess (odeint : Vec2 → List ℚ → ℚ → ℚ → List Vec2) (N F : ℚ) : ℚ :=
  mean ((conds N F).map (helper odeint))

lemma AB_survival_unfold (odeint : Vec2 → List ℚ → ℚ → ℚ → List Vec2)
    (N F a b : ℚ) :
    AB_survival odeint N F a b =
      if ∀ s ∈ odeint ⟨a, b⟩ (linspace 0 800 4000) N F,
          s.A > 0.1 ∧ s.B > 0.1 ∧ s.A + s.B ≤ 20 then 1 else 0 := by
  unfold AB_survival
  dsimp only
  rw [AdaptiveRegion.zipWith_map_same]
  simp only [AdaptiveRegion.forall_mem_map_iff]
  by_cases h : ∀ s ∈ odeint ⟨a, b⟩ (linspace 0 800 4000) N F,
      s.A > 0.1 ∧ s.B > 0.1 ∧ s.A + s.B ≤ 20
  · rw [if_pos ⟨fun s hs => (h s hs).1, fun s hs => (h s hs).2.1,
      fun s hs => (h s hs).2.2⟩, if_pos h]
    norm_num
  · have hn : ¬ ((∀ s ∈ odeint ⟨a, b⟩ (linspace 0 800 4000) N F, Vec2.A s > 0.1) ∧
        (∀ s ∈ odeint ⟨a, b⟩ (linspace 0 800 4000) N F, Vec2.B s > 0.1) ∧
        (∀ s ∈ odeint ⟨a, b⟩ (linspace 0 800 4000) N F,
          Vec2.A s + Vec2.B s ≤ 20)) := by
      rintro ⟨h1, h2, h3⟩
      exact h fun s hs => ⟨h1 s hs, h2 s hs, h3 s hs⟩
    rw [if_neg hn, if_neg h]
    norm_num

lemma AB_survival_binary (odeint : Vec2 → List ℚ → ℚ → ℚ → List Vec2)
    (N F a b : ℚ) :
    AB_survival odeint N F a b = 0 ∨ AB_survival odeint N F a b = 1 := by
  rw [AB_survival_unfold]
  split_ifs
  · right; rfl
  · left; rfl

lemma mean_unit_interval (l : List ℚ) (h : ∀ x ∈ l, x = 0 ∨ x = 1) :
    0 ≤ mean l ∧ mean l ≤ 1 := by
  have h0 : ∀ x ∈ l, (0 : ℚ) ≤ x := by
    intro x hx
    rcases h x hx with rfl | rfl <;> norm_num
  have h1 : ∀ x ∈ l, x ≤ (1 : ℚ) := by
    intro x hx
    rcases h x hx with rfl | rfl <;> norm_num
  unfold mean
  rcases Nat.eq_zero_or_pos l.length with hl | hl
  · rw [hl]
    norm_num
  · have hlen : (0 : ℚ) < (l.length : ℚ) := by exact_mod_cast hl
    constructor
    · exact div_nonneg (List.sum_nonneg h0) hlen.le
    · rw [div_le_one hlen]
      calc l.sum ≤ l.length • (1 : ℚ) := List.sum_le_card_nsmul l 1 h1
        _ = (l.length : ℚ) := by simp

end FixedCond

namespace FixedCond

/-- C7: every single-trial score of `AB_survival` is exactly `1.0` (survive:
`A > 0.1`, `B > 0.1`, `C ≤ 20` at every sampled time point) or `0.0`
(otherwise), and `AB_assess` returns the mean of the full 50×50 = 2500
sub-grid of such binary scores, hence a value in `[0, 1]`. -/
theorem AB_survival_binary_and_assess_mean
    (odeint : Vec2 → List ℚ → ℚ → ℚ → List Vec2) (Nv Fv a b : ℚ) :
    (AB_survival odeint Nv Fv a b = 1 ↔
      ∀ s ∈ odeint ⟨a, b⟩ (linspace 0 800 4000) Nv Fv,
        s.A > 0.1 ∧ s.B > 0.1 ∧ s.A + s.B ≤ 20) ∧
    (AB_survival odeint Nv Fv a b = 0 ∨ AB_survival odeint Nv Fv a b = 1) ∧
    AB_assess odeint Nv Fv = mean ((conds Nv Fv).map (helper odeint)) ∧
    ((conds Nv Fv).map (helper odeint)).length = 2500 ∧
    0 ≤ AB_assess odeint Nv Fv ∧ AB_assess odeint Nv Fv ≤ 1 := by
  have hb : ∀ x ∈ (conds Nv Fv).map (helper odeint), x = 0 ∨ x = 1 := by
    intro x hx
    obtain ⟨z, _, rfl⟩ := List.mem_map.mp hx
    exact AB_survival_binary odeint z.1 z.2.1 z.2.2.1 z.2.2.2
  refine ⟨?_, AB_survival_binary odeint Nv Fv a b, rfl, ?_, ?_, ?_⟩
  · rw [AB_survival_unfold]
    split_ifs with h
    · constructor
      · intro _
        exact h
      · intro _
        rfl
    · constructor
      · intro h1
        norm_num at h1
      · intro h1
        exact absurd h1 h
  · rw [List.length_map]
    unfold conds
    rw [AdaptiveRegion.length_flatMap_const _ _ 50
        (fun a _ => by simp [AdaptiveRegion.length_linspace]),
      AdaptiveRegion.length_linspace]
  · exact (mean_unit_interval _ hb).1
  · exact (mean_unit_interval _ hb).2

end FixedCond
